import Mathlib

/-!
Verification of the int8 quantization core (Int8Quantization.ipynb).

Floating-point tensors are modelled as lists of rationals (`List ℚ`); the
numeric operations of the notebook (min, max, scale/zero-point derivation,
round, clamp, uint8 cast, dequantization) are translated element-wise.
`torch.round` rounds half to even, modelled by `rnd`.  The uint8 cast
`.to(torch.uint8)` is modelled by reduction modulo 256 (`toU8`).  IEEE
division by zero produces a non-finite value (`255/0 = +inf`, and then
`0 * inf = NaN`); since ℚ has no infinities, the affine-parameter solver
returns `Option`, with `none` standing for the non-finite outcome of a
degenerate (collapsed) calibration range.
-/

namespace Quantization

/-- Floor of a rational, written out on the numerator and denominator so
that it evaluates inside the kernel. -/
def qfloor (x : ℚ) : ℤ := x.num / (x.den : ℤ)

/-- Round half to even, the rounding mode of `torch.round`. -/
def rnd (x : ℚ) : ℤ :=
  if x - qfloor x < 1/2 then qfloor x
  else if 1/2 < x - qfloor x then qfloor x + 1
  else if qfloor x % 2 = 0 then qfloor x else qfloor x + 1

/-- Integer clamp, modelling `Tensor.clamp(lo, hi)` applied to an
integral-valued tensor. -/
def clampZ (n lo hi : ℤ) : ℤ := min hi (max lo n)

/-- Rational clamp (used to state the spec's formula
`round(clamp(-min_val * scale, 0, 255))`). -/
def clampQ (x lo hi : ℚ) : ℚ := min hi (max lo x)

/-- The uint8 cast `.to(torch.uint8)`: reduction modulo 2^8. -/
def toU8 (n : ℤ) : ℤ := n % 256

/-- Model of `Tensor.min()` on a non-empty tensor (the `[]` case is arbitrary:
`torch` raises on empty tensors, and all tensors here are non-empty). -/
def tmin : List ℚ → ℚ
  | [] => 0
  | x :: xs => xs.foldl min x

/-- Model of `Tensor.max()` on a non-empty tensor. -/
def tmax : List ℚ → ℚ
  | [] => 0
  | x :: xs => xs.foldl max x

/-- Model of `min_val = t.min(); if min_val > 0: min_val = 0` from `quantize_linear`. -/
def calibMin (xs : List ℚ) : ℚ :=
  if tmin xs > 0 then 0 else tmin xs

/-- Model of `max_val = t.max(); if max_val < 0: max_val = 0` from `quantize_linear`. -/
def calibMax (xs : List ℚ) : ℚ :=
  if tmax xs < 0 then 0 else tmax xs

/-- Model of `scale = 255 / (max_val - min_val)` and
`zero_point = (-min_val * scale).round().clamp(0, 255).to(torch.uint8)`
from `quantize_linear`.  When `max_val - min_val = 0` the IEEE division
yields `+inf` and the zero point `0 * inf = NaN`; the non-finite outcome is
modelled as `none`. -/
def affineParams (minV maxV : ℚ) : Option (ℚ × ℤ) :=
  if maxV - minV = 0 then none
  else
    let s := 255 / (maxV - minV)
    some (s, clampZ (rnd (-minV * s)) 0 255)

/-- One element of
`(t * scale + zero_point).round().clamp(0, 255).to(torch.uint8)`. -/
def qElem (s : ℚ) (z : ℤ) (v : ℚ) : ℤ :=
  toU8 (clampZ (rnd (v * s + (z : ℚ))) 0 255)

/-- The elementwise quantization map of `quantize_linear`. -/
def quantizeTensor (s : ℚ) (z : ℤ) (xs : List ℚ) : List ℤ :=
  xs.map (qElem s z)

/-- One element of `(q.float() - zero_point) / scale`, the dequantization
performed in `QuantizedLinearLayer.forward`. -/
def dequantElem (s : ℚ) (z : ℤ) (q : ℤ) : ℚ :=
  ((q : ℚ) - (z : ℚ)) / s

/- ### Basic facts about `rnd` -/

theorem qfloor_eq (x : ℚ) : qfloor x = ⌊x⌋ := by
  rw [Rat.floor_def]; rfl

theorem rnd_le (x : ℚ) : (rnd x : ℚ) ≤ x + 1/2 := by
  have h0 : (⌊x⌋ : ℚ) ≤ x := Int.floor_le x
  have h1 : x < ⌊x⌋ + 1 := Int.lt_floor_add_one x
  unfold rnd
  rw [qfloor_eq]
  split_ifs <;> push_cast <;> linarith

theorem le_rnd (x : ℚ) : x - 1/2 ≤ (rnd x : ℚ) := by
  have h0 : (⌊x⌋ : ℚ) ≤ x := Int.floor_le x
  have h1 : x < ⌊x⌋ + 1 := Int.lt_floor_add_one x
  unfold rnd
  rw [qfloor_eq]
  split_ifs <;> push_cast <;> linarith

theorem abs_rnd_sub_le (x : ℚ) : |(rnd x : ℚ) - x| ≤ 1/2 := by
  have h1 := rnd_le x
  have h2 := le_rnd x
  rw [abs_le]; constructor <;> linarith

theorem rnd_intCast (n : ℤ) : rnd (n : ℚ) = n := by
  unfold rnd
  rw [qfloor_eq, Int.floor_intCast]
  norm_num

theorem rnd_ofNat (n : ℕ) : rnd (OfNat.ofNat n : ℚ) = OfNat.ofNat n := by
  have h := rnd_intCast (OfNat.ofNat n)
  push_cast at h
  exact_mod_cast h

theorem rnd_nonneg (x : ℚ) (h : -(1/2) ≤ x) : 0 ≤ rnd x := by
  have h0 : (⌊x⌋ : ℚ) ≤ x := Int.floor_le x
  have h1 : x < ⌊x⌋ + 1 := Int.lt_floor_add_one x
  have hm1 : (-1 : ℤ) ≤ ⌊x⌋ := by
    rw [Int.le_floor]; push_cast; linarith
  unfold rnd
  rw [qfloor_eq]
  split_ifs with hf1 hf2 hev
  · -- fractional part < 1/2, so x < ⌊x⌋ + 1/2 and ⌊x⌋ > -1
    have h2 : (-1 : ℚ) < (⌊x⌋ : ℚ) := by linarith
    have h3 : (-1 : ℤ) < ⌊x⌋ := by exact_mod_cast h2
    omega
  · omega
  · -- exact tie with ⌊x⌋ even: ⌊x⌋ = -1 is impossible since -1 is odd
    omega
  · omega

/- ### Calibration facts -/

theorem foldl_min_le (rest : List ℚ) :
    ∀ a : ℚ, rest.foldl min a ≤ a ∧ ∀ w ∈ rest, rest.foldl min a ≤ w := by
  induction rest with
  | nil => intro a; exact ⟨le_refl a, by intro w hw; cases hw⟩
  | cons y ys ih =>
    intro a
    constructor
    · exact le_trans (ih (min a y)).1 (min_le_left a y)
    · intro w hw
      rcases List.mem_cons.mp hw with h' | h'
      · rw [h']; exact le_trans (ih (min a y)).1 (min_le_right a y)
      · exact (ih (min a y)).2 w h'

theorem le_foldl_max (rest : List ℚ) :
    ∀ a : ℚ, a ≤ rest.foldl max a ∧ ∀ w ∈ rest, w ≤ rest.foldl max a := by
  induction rest with
  | nil => intro a; exact ⟨le_refl a, by intro w hw; cases hw⟩
  | cons y ys ih =>
    intro a
    constructor
    · exact le_trans (le_max_left a y) (ih (max a y)).1
    · intro w hw
      rcases List.mem_cons.mp hw with h' | h'
      · rw [h']; exact le_trans (le_max_right a y) (ih (max a y)).1
      · exact (ih (max a y)).2 w h'

theorem tmin_le_of_mem (xs : List ℚ) (v : ℚ) (hv : v ∈ xs) : tmin xs ≤ v := by
  match xs with
  | [] => cases hv
  | x :: rest =>
    rcases List.mem_cons.mp hv with h' | h'
    · subst h'; exact (foldl_min_le rest v).1
    · exact (foldl_min_le rest x).2 v h'

theorem le_tmax_of_mem (xs : List ℚ) (v : ℚ) (hv : v ∈ xs) : v ≤ tmax xs := by
  match xs with
  | [] => cases hv
  | x :: rest =>
    rcases List.mem_cons.mp hv with h' | h'
    · subst h'; exact (le_foldl_max rest v).1
    · exact (le_foldl_max rest x).2 v h'

theorem calibMin_nonpos (xs : List ℚ) : calibMin xs ≤ 0 := by
  unfold calibMin; split_ifs with h
  · exact le_refl 0
  · linarith [not_lt.mp h]

theorem calibMax_nonneg (xs : List ℚ) : 0 ≤ calibMax xs := by
  unfold calibMax; split_ifs with h
  · exact le_refl 0
  · linarith [not_lt.mp h]

theorem calibMin_le_of_mem (xs : List ℚ) (v : ℚ) (hv : v ∈ xs) :
    calibMin xs ≤ v := by
  have h := tmin_le_of_mem xs v hv
  unfold calibMin; split_ifs with h' <;> linarith

theorem le_calibMax_of_mem (xs : List ℚ) (v : ℚ) (hv : v ∈ xs) :
    v ≤ calibMax xs := by
  have h := le_tmax_of_mem xs v hv
  unfold calibMax; split_ifs with h' <;> linarith

/- ### Layers and the model tree -/

/-- An `nn.Linear` layer.  `bias` is `none` when the layer was built with
`bias=False` (then `layer.bias` is `None` in PyTorch). -/
structure LinearLayer where
  inFeatures : ℕ
  outFeatures : ℕ
  weight : List ℚ
  bias : Option (List ℚ)
deriving DecidableEq

/-- The result tuple of `quantize_linear`:
`(weight_quantized, weight_scale, weight_zero_point,
  bias_quantized, bias_scale, bias_zero_point)`. -/
structure QuantResult where
  weightQ : List ℤ
  weightScale : ℚ
  weightZeroPoint : ℤ
  biasQ : List ℤ
  biasScale : ℚ
  biasZeroPoint : ℤ
deriving DecidableEq

/-- Model of `quantize_linear`.  Returns `none` when the computation does not
produce a finite, well-defined result: reading `linear_layer.bias` on a
layer without bias raises `AttributeError`, and a collapsed calibration
range makes the IEEE arithmetic produce `inf`/`NaN` parameters
(see `affineParams`). -/
def quantizeLinear (l : LinearLayer) : Option QuantResult :=
  (affineParams (calibMin l.weight) (calibMax l.weight)).bind fun wp =>
    l.bias.bind fun b =>
      (affineParams (calibMin b) (calibMax b)).map fun bp =>
        ⟨quantizeTensor wp.1 wp.2 l.weight, wp.1, wp.2,
         quantizeTensor bp.1 bp.2 b, bp.1, bp.2⟩

/-- The `QuantizedLinearLayer` record, as built by `quantize_model` from
`layer.in_features`, `layer.out_features` and the `quantize_linear`
result. -/
structure QuantizedLinearLayer where
  inputDim : ℕ
  outputDim : ℕ
  weight : List ℤ
  weightScale : ℚ
  weightZeroPoint : ℤ
  bias : List ℤ
  biasScale : ℚ
  biasZeroPoint : ℤ
deriving DecidableEq

/-- A model tree: `nn.Linear` leaves, already-quantized leaves, containers
with named children in registration order (`named_children`), and
non-linear childless leaves such as `ReLU`/`Dropout`/`Flatten`, carrying
an identifying tag. -/
inductive ModelNode where
  | linear : LinearLayer → ModelNode
  | quantized : QuantizedLinearLayer → ModelNode
  | leaf : ℕ → ModelNode
  | container : List (String × ModelNode) → ModelNode

/-- The `QuantizedLinearLayer` that `quantize_model` installs in place of
a linear child. -/
def buildQuantized (l : LinearLayer) (r : QuantResult) : QuantizedLinearLayer :=
  ⟨l.inFeatures, l.outFeatures, r.weightQ, r.weightScale, r.weightZeroPoint,
   r.biasQ, r.biasScale, r.biasZeroPoint⟩

mutual

/-- Model of `quantize_model(model, exclude_layers)`.  The loop runs over
`model.named_children()`; a node with no children (linear, quantized or
other leaf) is returned as is.  Exceptions (reading a missing bias inside
`quantize_linear`) propagate, modelled by `none`.  Deep copies are the
identity in this value model, so `copy_model` does not affect the
returned tree and is omitted. -/
def quantizeModel (exclude : List String) : ModelNode → Option ModelNode
  | ModelNode.container cs =>
      (quantizeChildren exclude cs).map ModelNode.container
  | m => some m

/-- The body of the `for name, layer in model.named_children()` loop.
An excluded name is skipped (`continue`).  A linear child is replaced by
the quantized layer.  Any other child is recursed into by
`quantize_model(layer, exclude_layers)`; that call leaves `copy_model` at
its default `True`, so it transforms a deep copy of the child and its
result is discarded — the only effect that reaches the caller is a raised
exception, and the child itself stays in the tree unchanged. -/
def quantizeChildren (exclude : List String) :
    List (String × ModelNode) → Option (List (String × ModelNode))
  | [] => some []
  | (n, c) :: rest =>
      let step : Option ModelNode :=
        if n ∈ exclude then some c
        else
          match c with
          | ModelNode.linear l =>
              (quantizeLinear l).map fun r => ModelNode.quantized (buildQuantized l r)
          | ModelNode.container cs2 =>
              (quantizeModel exclude (ModelNode.container cs2)).map
                fun _ => ModelNode.container cs2
          | c' => some c'
      match step, quantizeChildren exclude rest with
      | some c', some rest' => some ((n, c') :: rest')
      | _, _ => none

end

/- ### Helper lemmas about clamping and casting -/

theorem clampZ_nonneg (n : ℤ) : 0 ≤ clampZ n 0 255 := by
  unfold clampZ; omega

theorem clampZ_le (n : ℤ) : clampZ n 0 255 ≤ 255 := by
  unfold clampZ; omega

theorem clampZ_of_mem (n : ℤ) (h0 : 0 ≤ n) (h1 : n ≤ 255) : clampZ n 0 255 = n := by
  unfold clampZ; omega

theorem toU8_of_mem (n : ℤ) (h0 : 0 ≤ n) (h1 : n ≤ 255) : toU8 n = n := by
  unfold toU8; omega

/-- The cast in `qElem` is the identity: clamping happens first, so the
value handed to the uint8 cast is already in `[0, 255]`. -/
theorem qElem_eq_clamp (s : ℚ) (z : ℤ) (v : ℚ) :
    qElem s z v = clampZ (rnd (v * s + (z : ℚ))) 0 255 := by
  unfold qElem
  exact toU8_of_mem _ (clampZ_nonneg _) (clampZ_le _)

/-- Core rounding estimate: on `[-1/2, 255 + 1/2]`, rounding followed by
clamping to `[0, 255]` moves a value by at most `1/2`. -/
theorem abs_clamp_rnd_sub_le (t : ℚ) (h1 : -(1/2) ≤ t) (h2 : t ≤ 255 + 1/2) :
    |((clampZ (rnd t) 0 255 : ℤ) : ℚ) - t| ≤ 1/2 := by
  have hlo : 0 ≤ rnd t := rnd_nonneg t h1
  have hle := rnd_le t
  have hge := le_rnd t
  rcases le_or_lt (rnd t) 255 with hc | hc
  · rw [clampZ_of_mem _ hlo hc]
    have := abs_rnd_sub_le t
    rw [abs_le] at this ⊢
    constructor <;> linarith
  · -- rnd t = 256, forced by t ≤ 255.5; then t = 255.5 and the clamp
    -- yields 255, an error of exactly 1/2.
    have h256 : rnd t ≤ 256 := by
      have hq : (rnd t : ℚ) < 257 := by linarith
      have : rnd t < 257 := by exact_mod_cast hq
      omega
    have hc' : rnd t = 256 := by omega
    have ht : t = 255 + 1/2 := by
      have : ((256 : ℤ) : ℚ) ≤ t + 1/2 := by rw [← hc']; exact hle
      push_cast at this
      linarith
    have hcl : clampZ (rnd t) 0 255 = 255 := by unfold clampZ; omega
    have harg : ((255 : ℤ) : ℚ) - (255 + 1/2) = -(1/2) := by push_cast; ring
    rw [hcl, ht, harg, abs_neg, abs_of_nonneg (by norm_num : (0:ℚ) ≤ 1/2)]

/- ### Claims -/

/-- Claim C5 (confirmed): for every non-empty tensor, calibration returns
`min_val = min(0, min(elements))` and `max_val = max(0, max(elements))`,
so the calibrated range satisfies `min_val ≤ 0 ≤ max_val`. -/
theorem calibration_spec (xs : List ℚ) (h : xs ≠ []) :
    calibMin xs = min 0 (tmin xs) ∧ calibMax xs = max 0 (tmax xs) ∧
    calibMin xs ≤ 0 ∧ 0 ≤ calibMax xs := by
  refine ⟨?_, ?_, calibMin_nonpos xs, calibMax_nonneg xs⟩
  · unfold calibMin
    split_ifs with h'
    · rw [min_eq_left (le_of_lt h')]
    · rw [min_eq_right (not_lt.mp h')]
  · unfold calibMax
    split_ifs with h'
    · rw [max_eq_left (le_of_lt h')]
    · rw [max_eq_right (not_lt.mp h')]

/-- Witness for C5 at the concrete tensor `[1, -3]`. -/
theorem calibration_spec_witness :
    (([1, -3] : List ℚ) ≠ []) ∧
    (calibMin [1, -3] = min 0 (tmin [1, -3]) ∧
     calibMax [1, -3] = max 0 (tmax [1, -3]) ∧
     calibMin [1, -3] ≤ 0 ∧ 0 ≤ calibMax [1, -3]) :=
  ⟨by simp, calibration_spec [1, -3] (by simp)⟩

/-- Claim C3 (confirmed): for a calibrated range with `min_val < max_val`
the solver returns `scale = 255 / (max_val - min_val)` and a zero point
equal to the spec's `round(clamp(-min_val * scale, 0, 255))`, and the
zero point fits in an unsigned 8-bit integer.  (The code clamps after
rounding; on a calibrated range the value being rounded already lies in
`[0, 255]`, so the two orders agree.)  The witness instantiates the
scenario `min = -2, max = 3`, giving `scale = 51` and `zero_point = 102`. -/
theorem affine_params_spec (mn mx : ℚ) (h1 : mn ≤ 0) (h2 : 0 ≤ mx)
    (h3 : mn < mx) :
    affineParams mn mx =
      some (255 / (mx - mn),
            rnd (clampQ (-mn * (255 / (mx - mn))) 0 255)) ∧
    0 ≤ rnd (clampQ (-mn * (255 / (mx - mn))) 0 255) ∧
    rnd (clampQ (-mn * (255 / (mx - mn))) 0 255) ≤ 255 := by
  have hd : mx - mn ≠ 0 := by intro h; linarith [sub_eq_zero.mp h]
  have hdpos : 0 < mx - mn := by linarith
  set s := 255 / (mx - mn) with hs
  have hspos : 0 < s := div_pos (by norm_num) hdpos
  set u := -mn * s with hu
  have hu0 : 0 ≤ u := mul_nonneg (by linarith) (le_of_lt hspos)
  have hu255 : u ≤ 255 := by
    have hle : -mn ≤ mx - mn := by linarith
    have h255 : (mx - mn) * s = 255 := by
      rw [hs]; field_simp
    calc u = -mn * s := rfl
    _ ≤ (mx - mn) * s := mul_le_mul_of_nonneg_right hle (le_of_lt hspos)
    _ = 255 := h255
  have hclq : clampQ u 0 255 = u := by
    unfold clampQ
    rw [max_eq_right hu0, min_eq_right hu255]
  have hr0 : 0 ≤ rnd u := rnd_nonneg u (by linarith)
  have hr255 : rnd u ≤ 255 := by
    have hle := rnd_le u
    have hq : (rnd u : ℚ) < 256 := by linarith
    have : rnd u < 256 := by exact_mod_cast hq
    omega
  refine ⟨?_, by rw [hclq]; exact hr0, by rw [hclq]; exact hr255⟩
  unfold affineParams
  rw [if_neg hd]
  show some (s, clampZ (rnd u) 0 255) = some (s, rnd (clampQ u 0 255))
  rw [hclq, clampZ_of_mem _ hr0 hr255]

/-- Witness for C3: the spec's scenario `min = -2, max = 3` yields
`scale = 51`, `zero_point = 102`. -/
theorem affine_params_spec_witness :
    affineParams (-2) 3 = some (51, 102) ∧ (0 : ℤ) ≤ 102 ∧ (102 : ℤ) ≤ 255 := by
  have h := affine_params_spec (-2) 3 (by norm_num) (by norm_num) (by norm_num)
  refine ⟨?_, by norm_num, by norm_num⟩
  rw [h.1]
  have h2 : clampQ (-(-2 : ℚ) * (255 / (3 - (-2)))) 0 255 = 102 := by
    unfold clampQ
    rw [show (-(-2 : ℚ) * (255 / (3 - (-2)))) = 102 from by norm_num]
    rw [max_eq_right (by norm_num : (0:ℚ) ≤ 102),
        min_eq_right (by norm_num : (102:ℚ) ≤ 255)]
  rw [h2, rnd_ofNat 102, show (255 : ℚ) / (3 - (-2)) = 51 from by norm_num]

/-- Claim C6 (confirmed): every element of the quantized output lies in
`[0, 255]` regardless of the input's magnitude, and the clamp happens
before the uint8 cast, so the cast changes nothing (no wraparound). -/
theorem quantized_values_in_range (s : ℚ) (z : ℤ) (xs : List ℚ) (q : ℤ)
    (hq : q ∈ quantizeTensor s z xs) :
    0 ≤ q ∧ q ≤ 255 ∧
    ∃ v ∈ xs, q = clampZ (rnd (v * s + (z : ℚ))) 0 255 := by
  unfold quantizeTensor at hq
  rcases List.mem_map.mp hq with ⟨v, hv, hvq⟩
  rw [← hvq, qElem_eq_clamp]
  exact ⟨clampZ_nonneg _, clampZ_le _, v, hv, rfl⟩

/-- Witness for C6 at a huge-magnitude input: quantizing `10^6` with
`scale = 51, zero_point = 102` stays in `[0, 255]`. -/
theorem quantized_values_in_range_witness :
    0 ≤ qElem 51 102 1000000 ∧ qElem 51 102 1000000 ≤ 255 ∧
    ∃ v ∈ ([1000000] : List ℚ),
      qElem 51 102 1000000 = clampZ (rnd (v * 51 + ((102 : ℤ) : ℚ))) 0 255 :=
  quantized_values_in_range 51 102 [1000000] (qElem 51 102 1000000)
    (by unfold quantizeTensor; simp)

/-- Claim C7 (confirmed): for a tensor containing 0, quantizing 0 with the
derived parameters gives exactly the zero point, and dequantizing the zero
point gives exactly 0. -/
theorem zero_fidelity (xs : List ℚ) (s : ℚ) (z : ℤ)
    (h0 : (0 : ℚ) ∈ xs)
    (hp : affineParams (calibMin xs) (calibMax xs) = some (s, z)) :
    qElem s z 0 = z ∧ dequantElem s z (qElem s z 0) = 0 := by
  have hz : 0 ≤ z ∧ z ≤ 255 := by
    unfold affineParams at hp
    split_ifs at hp
    rw [Option.some.injEq, Prod.mk.injEq] at hp
    rw [← hp.2]
    exact ⟨clampZ_nonneg _, clampZ_le _⟩
  have hq : qElem s z 0 = z := by
    rw [qElem_eq_clamp]
    have harg : (0 : ℚ) * s + (z : ℚ) = (z : ℚ) := by ring
    rw [harg, rnd_intCast, clampZ_of_mem _ hz.1 hz.2]
  refine ⟨hq, ?_⟩
  rw [hq]
  unfold dequantElem
  rw [sub_self, zero_div]

/-- Witness for C7 at the tensor `[0, 5]`, whose derived parameters are
`scale = 51, zero_point = 0`. -/
theorem zero_fidelity_witness :
    ((0 : ℚ) ∈ ([0, 5] : List ℚ)) ∧
    qElem 51 0 0 = 0 ∧ dequantElem 51 0 (qElem 51 0 0) = 0 := by
  have hmin : calibMin [0, 5] = 0 := by
    unfold calibMin tmin
    simp only [List.foldl]
    rw [min_eq_left (by norm_num : (0:ℚ) ≤ 5)]
    norm_num
  have hmax : calibMax [0, 5] = 5 := by
    unfold calibMax tmax
    simp only [List.foldl]
    rw [max_eq_right (by norm_num : (0:ℚ) ≤ 5)]
    norm_num
  have hp : affineParams (calibMin [0, 5]) (calibMax [0, 5]) = some (51, 0) := by
    rw [hmin, hmax]
    unfold affineParams
    norm_num
    rw [show rnd (0 : ℚ) = 0 from rnd_intCast 0]
    rfl
  exact ⟨by simp, zero_fidelity [0, 5] 51 0 (by simp) hp⟩

/-- Claim C4 (confirmed): for every element `v` of a tensor quantized with
the scale and zero point derived from its own calibrated range,
`|dequantize(quantize(v)) - v| ≤ 0.5 / scale`. -/
theorem quantize_roundtrip_bound (xs : List ℚ) (v s : ℚ) (z : ℤ)
    (hv : v ∈ xs)
    (hp : affineParams (calibMin xs) (calibMax xs) = some (s, z)) :
    |dequantElem s z (qElem s z v) - v| ≤ (1/2) / s := by
  unfold affineParams at hp
  split_ifs at hp with hdeg
  rw [Option.some.injEq, Prod.mk.injEq] at hp
  obtain ⟨hs, hz⟩ := hp
  rw [hs] at hz
  have hmn0 : calibMin xs ≤ 0 := calibMin_nonpos xs
  have hmx0 : 0 ≤ calibMax xs := calibMax_nonneg xs
  have hdpos : 0 < calibMax xs - calibMin xs := by
    rcases lt_or_eq_of_le (le_trans hmn0 hmx0) with h | h
    · linarith
    · exact absurd (by rw [h]; ring) hdeg
  have hspos : 0 < s := by rw [← hs]; exact div_pos (by norm_num) hdpos
  have h255 : (calibMax xs - calibMin xs) * s = 255 := by
    rw [← hs]; field_simp
  have hvmn : calibMin xs ≤ v := calibMin_le_of_mem xs v hv
  have hvmx : v ≤ calibMax xs := le_calibMax_of_mem xs v hv
  -- the zero point is the unclamped rounding of `-min_val * scale`
  have hu0 : 0 ≤ -calibMin xs * s := mul_nonneg (by linarith) (le_of_lt hspos)
  have hu255 : -calibMin xs * s ≤ 255 := by
    have hle : -calibMin xs ≤ calibMax xs - calibMin xs := by linarith
    calc -calibMin xs * s ≤ (calibMax xs - calibMin xs) * s :=
          mul_le_mul_of_nonneg_right hle (le_of_lt hspos)
    _ = 255 := h255
  have hzr : z = rnd (-calibMin xs * s) := by
    rw [← hz]
    have hr0 : 0 ≤ rnd (-calibMin xs * s) := rnd_nonneg _ (by linarith)
    have hr255 : rnd (-calibMin xs * s) ≤ 255 := by
      have hle := rnd_le (-calibMin xs * s)
      have hq : (rnd (-calibMin xs * s) : ℚ) < 256 := by linarith
      have : rnd (-calibMin xs * s) < 256 := by exact_mod_cast hq
      omega
    exact clampZ_of_mem _ hr0 hr255
  have hz_lo : -calibMin xs * s - 1/2 ≤ (z : ℚ) := by
    rw [hzr]; exact le_rnd _
  have hz_hi : (z : ℚ) ≤ -calibMin xs * s + 1/2 := by
    rw [hzr]; exact rnd_le _
  -- the pre-rounding value `v * s + z` lies in `[-1/2, 255 + 1/2]`
  have hms : calibMin xs * s ≤ v * s :=
    mul_le_mul_of_nonneg_right hvmn (le_of_lt hspos)
  have hvs : v * s ≤ calibMax xs * s :=
    mul_le_mul_of_nonneg_right hvmx (le_of_lt hspos)
  have hexp : calibMax xs * s - calibMin xs * s = 255 := by
    rw [← h255]; ring
  have ht_lo : -(1/2) ≤ v * s + (z : ℚ) := by nlinarith
  have ht_hi : v * s + (z : ℚ) ≤ 255 + 1/2 := by nlinarith
  -- assemble
  have hqe := qElem_eq_clamp s z v
  have hcore := abs_clamp_rnd_sub_le (v * s + (z : ℚ)) ht_lo ht_hi
  have herr : dequantElem s z (qElem s z v) - v =
      (((clampZ (rnd (v * s + (z : ℚ))) 0 255 : ℤ) : ℚ) - (v * s + (z : ℚ))) / s := by
    rw [hqe]
    unfold dequantElem
    field_simp
    ring
  rw [herr, abs_div, abs_of_pos hspos]
  exact (div_le_div_iff_of_pos_right hspos).mpr hcore

/-- Evaluation: calibrating the tensor `[-2, 3]`. -/
theorem calibMin_neg2_3 : calibMin [(-2 : ℚ), 3] = -2 := by
  unfold calibMin tmin
  simp only [List.foldl]
  rw [min_eq_left (by norm_num : (-2:ℚ) ≤ 3)]
  norm_num

theorem calibMax_neg2_3 : calibMax [(-2 : ℚ), 3] = 3 := by
  unfold calibMax tmax
  simp only [List.foldl]
  rw [max_eq_right (by norm_num : (-2:ℚ) ≤ 3)]
  norm_num

/-- Evaluation: the affine parameters of the tensor `[-2, 3]`. -/
theorem affineParams_neg2_3 :
    affineParams (calibMin [(-2 : ℚ), 3]) (calibMax [(-2 : ℚ), 3]) =
      some (51, 102) := by
  rw [calibMin_neg2_3, calibMax_neg2_3]
  unfold affineParams
  norm_num
  rw [rnd_ofNat 102]
  rfl

/-- Witness for C4 at the tensor `[-2, 3]` and element `v = 3`, with the
derived parameters `scale = 51, zero_point = 102`. -/
theorem quantize_roundtrip_bound_witness :
    ((3 : ℚ) ∈ ([-2, 3] : List ℚ)) ∧
    affineParams (calibMin [-2, 3]) (calibMax [-2, 3]) = some (51, 102) ∧
    |dequantElem 51 102 (qElem 51 102 3) - 3| ≤ (1/2) / 51 :=
  ⟨by simp, affineParams_neg2_3,
   quantize_roundtrip_bound [-2, 3] 3 51 102 (by simp) affineParams_neg2_3⟩

/-- Claim C2 (code bug): on an all-zero weight tensor the calibrated range
collapses to `min = max = 0` and the solver divides by zero: the IEEE
result is `scale = +inf`, `zero_point = NaN` (modelled `none`), not the
documented fallback `scale = 1, zero_point = 0`; `quantize_linear`
propagates the non-finite outcome. -/
theorem quantize_linear_degenerate_no_fallback :
    calibMin [0, 0] = 0 ∧ calibMax [0, 0] = 0 ∧
    affineParams 0 0 = none ∧
    quantizeLinear ⟨2, 1, [0, 0], some [1]⟩ = none := by
  have hmin : calibMin [(0 : ℚ), 0] = 0 := by
    unfold calibMin tmin
    simp
  have hmax : calibMax [(0 : ℚ), 0] = 0 := by
    unfold calibMax tmax
    simp
  have haff : affineParams 0 0 = none := by unfold affineParams; norm_num
  refine ⟨hmin, hmax, haff, ?_⟩
  unfold quantizeLinear
  show (affineParams (calibMin [0, 0]) (calibMax [0, 0])).bind _ = none
  rw [hmin, hmax, haff]
  rfl

/-- Claim C10 (confirmed): `quantize_linear` reads `linear_layer.bias`
unconditionally, so a layer constructed without a bias makes quantization
fail (AttributeError on `None`) instead of skipping the bias. -/
theorem quantize_linear_requires_bias (l : LinearLayer) (h : l.bias = none) :
    quantizeLinear l = none := by
  unfold quantizeLinear
  rw [h]
  cases affineParams (calibMin l.weight) (calibMax l.weight) <;> rfl

/-- Witness for C10: a concrete bias-free layer fails to quantize. -/
theorem quantize_linear_requires_bias_witness :
    (LinearLayer.bias ⟨2, 1, [1, 2], none⟩ = none) ∧
    quantizeLinear ⟨2, 1, [1, 2], none⟩ = none :=
  ⟨rfl, quantize_linear_requires_bias ⟨2, 1, [1, 2], none⟩ rfl⟩

/-- An excluded child is passed through verbatim by the traversal, at the
same position. -/
theorem quantizeChildren_excluded (E : List String) :
    ∀ (cs cs' : List (String × ModelNode)),
      quantizeChildren E cs = some cs' →
      ∀ (i : ℕ) (n : String) (c : ModelNode),
        cs.get? i = some (n, c) → n ∈ E → cs'.get? i = some (n, c) := by
  intro cs
  induction cs with
  | nil =>
    intro cs' _ i n c hi _
    simp at hi
  | cons hd rest ih =>
    intro cs' h i n c hi hn
    obtain ⟨n0, c0⟩ := hd
    rw [quantizeChildren.eq_def] at h
    simp only [] at h
    split at h
    · rename_i c0' rest' heq1 heq2
      rw [Option.some.injEq] at h
      subst h
      cases i with
      | zero =>
        rw [List.get?_cons_zero, Option.some.injEq] at hi
        have hn0 : n0 = n := (Prod.mk.injEq _ _ _ _).mp hi |>.1
        have hc0 : c0 = c := (Prod.mk.injEq _ _ _ _).mp hi |>.2
        subst hn0; subst hc0
        rw [if_pos hn, Option.some.injEq] at heq1
        rw [List.get?_cons_zero, heq1]
      | succ i =>
        rw [List.get?_cons_succ] at hi ⊢
        exact ih rest' heq2 i n c hi hn
    · exact absurd h (by simp)

/-- Claim C8 (confirmed): in a tree transformed with exclusion set `E`,
every direct child whose name is in `E` appears unchanged (same variant
and values) at its position in the result; nothing is recursed into or
rebuilt for it. -/
theorem excluded_child_unchanged (E : List String)
    (cs : List (String × ModelNode)) (m : ModelNode)
    (h : quantizeModel E (ModelNode.container cs) = some m)
    (i : ℕ) (n : String) (c : ModelNode)
    (hi : cs.get? i = some (n, c)) (hn : n ∈ E) :
    ∃ cs', m = ModelNode.container cs' ∧ cs'.get? i = some (n, c) := by
  rw [quantizeModel] at h
  cases hqc : quantizeChildren E cs with
  | none => rw [hqc] at h; exact absurd h (by simp)
  | some cs' =>
    rw [hqc] at h
    rw [Option.map_some', Option.some.injEq] at h
    exact ⟨cs', h.symm, quantizeChildren_excluded E cs cs' hqc i n c hi hn⟩

/-- Witness for C8: a container whose single child `"a"` (a non-linear
leaf) is excluded comes back unchanged. -/
theorem excluded_child_unchanged_witness :
    ∃ cs', (ModelNode.container [("a", ModelNode.leaf 7)] : ModelNode) =
        ModelNode.container cs' ∧
      cs'.get? 0 = some ("a", ModelNode.leaf 7) :=
  excluded_child_unchanged ["a"] [("a", ModelNode.leaf 7)]
    (ModelNode.container [("a", ModelNode.leaf 7)])
    (by simp [quantizeModel, quantizeChildren])
    0 "a" (ModelNode.leaf 7) rfl (by simp)

/- ### Concrete evaluation of `quantize_linear` on the layer
`weight = [-2, 3], bias = [1]` (used by the tree-transformation claims) -/

theorem qElem_51_102_neg2 : qElem 51 102 (-2) = 0 := by
  unfold qElem
  rw [show ((-2 : ℚ) * 51 + ((102 : ℤ) : ℚ)) = 0 from by push_cast; ring]
  rw [show rnd (0 : ℚ) = 0 from rnd_intCast 0]
  rfl

theorem qElem_51_102_3 : qElem 51 102 3 = 255 := by
  unfold qElem
  rw [show ((3 : ℚ) * 51 + ((102 : ℤ) : ℚ)) = 255 from by push_cast; ring]
  rw [rnd_ofNat 255]
  rfl

theorem qElem_255_0_1 : qElem 255 0 1 = 255 := by
  unfold qElem
  rw [show ((1 : ℚ) * 255 + ((0 : ℤ) : ℚ)) = 255 from by push_cast; ring]
  rw [rnd_ofNat 255]
  rfl

theorem calibMin_one : calibMin [(1 : ℚ)] = 0 := by
  unfold calibMin tmin
  norm_num

theorem calibMax_one : calibMax [(1 : ℚ)] = 1 := by
  unfold calibMax tmax
  norm_num

theorem affineParams_0_1 : affineParams 0 1 = some (255, 0) := by
  unfold affineParams
  norm_num
  rw [show rnd (0 : ℚ) = 0 from rnd_intCast 0]
  rfl

/-- Evaluation of `quantize_linear` on the layer `weight = [-2, 3], bias = [1]`:
weight scale `51`, weight zero point `102`, quantized weight `[0, 255]`;
bias scale `255`, bias zero point `0`, quantized bias `[255]`. -/
theorem quantizeLinear_eval :
    quantizeLinear ⟨2, 1, [-2, 3], some [1]⟩ =
      some ⟨[0, 255], 51, 102, [255], 255, 0⟩ := by
  unfold quantizeLinear
  show (affineParams (calibMin [-2, 3]) (calibMax [-2, 3])).bind _ = _
  rw [affineParams_neg2_3]
  simp only [Option.some_bind]
  rw [calibMin_one, calibMax_one, affineParams_0_1, Option.map_some']
  rw [Option.some.injEq]
  show QuantResult.mk (quantizeTensor 51 102 [-2, 3]) 51 102
      (quantizeTensor 255 0 [1]) 255 0 = _
  unfold quantizeTensor
  simp only [List.map]
  rw [qElem_51_102_neg2, qElem_51_102_3, qElem_255_0_1]

/-- A non-excluded linear child of the node being transformed is replaced
by its quantized version (the behavior the notebook's demo exercises on a
flat `nn.Sequential`). -/
theorem quantizeChildren_flat_linear :
    quantizeChildren [] [("l", ModelNode.linear ⟨2, 1, [-2, 3], some [1]⟩)] =
      some [("l", ModelNode.quantized ⟨2, 1, [0, 255], 51, 102, [255], 255, 0⟩)] := by
  simp [quantizeChildren, quantizeLinear_eval, buildQuantized]

/-- Claim C1 (code bug): a Linear leaf one container level down is NOT
replaced, even with an empty exclusion set.  The recursive call
`quantize_model(layer, exclude_layers)` leaves `copy_model` at its default
`True`, so it deep-copies the child container, quantizes the copy and
discards it: the returned tree keeps the original, un-quantized nested
linear layer.  The second conjunct shows the same linear layer IS replaced
when it sits at top level, so the claim's premise fails only through the
broken recursion. -/
theorem quantize_model_nested_linear_untouched :
    quantizeModel []
        (ModelNode.container
          [("inner", ModelNode.container
            [("l", ModelNode.linear ⟨2, 1, [-2, 3], some [1]⟩)])]) =
      some (ModelNode.container
        [("inner", ModelNode.container
          [("l", ModelNode.linear ⟨2, 1, [-2, 3], some [1]⟩)])]) ∧
    quantizeModel []
        (ModelNode.container [("l", ModelNode.linear ⟨2, 1, [-2, 3], some [1]⟩)]) =
      some (ModelNode.container
        [("l", ModelNode.quantized ⟨2, 1, [0, 255], 51, 102, [255], 255, 0⟩)]) := by
  have hflat : quantizeModel []
      (ModelNode.container [("l", ModelNode.linear ⟨2, 1, [-2, 3], some [1]⟩)]) =
      some (ModelNode.container
        [("l", ModelNode.quantized ⟨2, 1, [0, 255], 51, 102, [255], 255, 0⟩)]) := by
    rw [quantizeModel, quantizeChildren_flat_linear]
    rfl
  refine ⟨?_, hflat⟩
  rw [quantizeModel]
  rw [show quantizeChildren []
      [("inner", ModelNode.container
        [("l", ModelNode.linear ⟨2, 1, [-2, 3], some [1]⟩)])] =
      some [("inner", ModelNode.container
        [("l", ModelNode.linear ⟨2, 1, [-2, 3], some [1]⟩)])] from by
    simp [quantizeChildren, hflat]]
  rfl

/-- Claim C9 (code bug): an exclusion entry that matches no child name
lets the transformation complete (first conjunct: the result is `some`,
not an error) but is silently ignored: the returned model is exactly the
one produced without the entry (second conjunct), and `quantize_model`
returns nothing but the model, so no warning reaches the caller. -/
theorem unknown_exclusion_silently_ignored :
    quantizeModel ["typo"]
        (ModelNode.container
          [("0", ModelNode.linear ⟨2, 1, [-2, 3], some [1]⟩),
           ("1", ModelNode.leaf 3)]) =
      some (ModelNode.container
        [("0", ModelNode.quantized ⟨2, 1, [0, 255], 51, 102, [255], 255, 0⟩),
         ("1", ModelNode.leaf 3)]) ∧
    quantizeModel ["typo"]
        (ModelNode.container
          [("0", ModelNode.linear ⟨2, 1, [-2, 3], some [1]⟩),
           ("1", ModelNode.leaf 3)]) =
      quantizeModel []
        (ModelNode.container
          [("0", ModelNode.linear ⟨2, 1, [-2, 3], some [1]⟩),
           ("1", ModelNode.leaf 3)]) := by
  have h0 : ¬ ("0" : String) ∈ ["typo"] := by simp
  have h1 : ¬ ("1" : String) ∈ ["typo"] := by simp
  have hty : quantizeModel ["typo"]
      (ModelNode.container
        [("0", ModelNode.linear ⟨2, 1, [-2, 3], some [1]⟩),
         ("1", ModelNode.leaf 3)]) =
      some (ModelNode.container
        [("0", ModelNode.quantized ⟨2, 1, [0, 255], 51, 102, [255], 255, 0⟩),
         ("1", ModelNode.leaf 3)]) := by
    rw [quantizeModel]
    rw [show quantizeChildren ["typo"]
        [("0", ModelNode.linear ⟨2, 1, [-2, 3], some [1]⟩),
         ("1", ModelNode.leaf 3)] =
        some [("0", ModelNode.quantized ⟨2, 1, [0, 255], 51, 102, [255], 255, 0⟩),
              ("1", ModelNode.leaf 3)] from by
      simp [quantizeChildren, h0, h1, quantizeLinear_eval, buildQuantized]]
    rfl
  have hemp : quantizeModel []
      (ModelNode.container
        [("0", ModelNode.linear ⟨2, 1, [-2, 3], some [1]⟩),
         ("1", ModelNode.leaf 3)]) =
      some (ModelNode.container
        [("0", ModelNode.quantized ⟨2, 1, [0, 255], 51, 102, [255], 255, 0⟩),
         ("1", ModelNode.leaf 3)]) := by
    rw [quantizeModel]
    rw [show quantizeChildren []
        [("0", ModelNode.linear ⟨2, 1, [-2, 3], some [1]⟩),
         ("1", ModelNode.leaf 3)] =
        some [("0", ModelNode.quantized ⟨2, 1, [0, 255], 51, 102, [255], 255, 0⟩),
              ("1", ModelNode.leaf 3)] from by
      simp [quantizeChildren, quantizeLinear_eval, buildQuantized]]
    rfl
  exact ⟨hty, hty.trans hemp.symm⟩

end Quantization
